import Mathlib

/-!
Verification of the LudiiMCTSVariations win-rate pipeline
(`src/python_script/train_krr_winrate.py` and
`src/python_script/tune_krr_winrate.py`).

Strings are embedded as lists of characters (`Str := List Char`), numbers
as `Nat`/`ℚ`; a Python `None` / `NaN` cell is an `Option`; file access is
replaced by explicit in-memory file entries (name, size, lines).
-/

abbrev Str := List Char

/-- Python whitespace characters recognised by `str.strip` / regex `\s`
(ASCII range, which is all the logs contain). -/
def isWs (c : Char) : Bool :=
  c = ' ' || c = '\t' || c = '\n' || c = '\r' || c = '\x0b' || c = '\x0c'

/-- `str.strip()`: remove leading and trailing whitespace. -/
def strip (cs : Str) : Str :=
  ((cs.dropWhile isWs).reverse.dropWhile isWs).reverse

/-- Skip a (possibly empty) run of whitespace, regex `\s*`. -/
def skipWs (cs : Str) : Str := cs.dropWhile isWs

/-- Value of a decimal digit string (the input is guaranteed non-empty by
`takeNum`). -/
def natOfDigits (ds : Str) : Nat :=
  ds.foldl (fun n c => n * 10 + (c.toNat - '0'.toNat)) 0

/-- Match a literal at the head of the input (regex literal text),
returning the rest. -/
def dropLit (lit cs : Str) : Option Str :=
  if lit.isPrefixOf cs then some (cs.drop lit.length) else none

/-- Match regex `(\d+)` greedily at the head of the input. -/
def takeNum (cs : Str) : Option (Nat × Str) :=
  let ds := cs.takeWhile Char.isDigit
  if ds.isEmpty then none else some (natOfDigits ds, cs.dropWhile Char.isDigit)

/-- Captures of one match of `COMPLETED_RE`
(`completed=(\d+)/(\d+),\s*wins=(\d+),\s*losses=(\d+),\s*draws=(\d+),\s*failures=(\d+),\s*avgMoves=([0-9.]+)`).
The seventh group is kept as raw text (it is only ever converted to a
float, which no claim depends on). -/
structure Completed where
  completed : Nat
  total : Nat
  wins : Nat
  losses : Nat
  draws : Nat
  failures : Nat
  avgMoves : Str
deriving DecidableEq

/-- `<label>(\d+)`: a literal followed by a greedy digit group. -/
def keyNum (label : Str) (cs : Str) : Option (Nat × Str) :=
  match dropLit label cs with
  | none => none
  | some cs1 => takeNum cs1

/-- `,\s*<label>(\d+)`: comma, optional whitespace, literal, digit group. -/
def commaWsKeyNum (label : Str) (cs : Str) : Option (Nat × Str) :=
  match dropLit (",".toList) cs with
  | none => none
  | some cs1 => keyNum label (skipWs cs1)

/-- Try to match `COMPLETED_RE` starting exactly at the head of the
input.  Every greedy repetition in the regex is followed by a character
it cannot consume, so plain maximal munch is exact. -/
def tryCompletedAt (cs : Str) : Option Completed :=
  match keyNum ("completed=".toList) cs with
  | none => none
  | some (completed, cs) =>
    match keyNum ("/".toList) cs with
    | none => none
    | some (total, cs) =>
      match commaWsKeyNum ("wins=".toList) cs with
      | none => none
      | some (wins, cs) =>
        match commaWsKeyNum ("losses=".toList) cs with
        | none => none
        | some (losses, cs) =>
          match commaWsKeyNum ("draws=".toList) cs with
          | none => none
          | some (draws, cs) =>
            match commaWsKeyNum ("failures=".toList) cs with
            | none => none
            | some (failures, cs) =>
              match dropLit (",".toList) cs with
              | none => none
              | some cs =>
                match dropLit ("avgMoves=".toList) (skipWs cs) with
                | none => none
                | some cs =>
                  let av := cs.takeWhile (fun c => c.isDigit || c = '.')
                  if av.isEmpty then none
                  else some ⟨completed, total, wins, losses, draws, failures, av⟩

/-- `COMPLETED_RE.search(line)`: leftmost match anywhere in the line. -/
def searchCompleted : Str → Option Completed
  | [] => tryCompletedAt []
  | c :: cs =>
    match tryCompletedAt (c :: cs) with
    | some r => some r
    | none => searchCompleted cs

/-- `GAME_RE.match` / `VARIANT_RE.match` on an already-stripped line:
regex `^<Label>:\s*(.+)$` with `re.IGNORECASE`, followed by
`.group(1).strip()`.  `label` is passed in lowercase. -/
def matchLabel (label line : Str) : Option Str :=
  if (line.take label.length).map Char.toLower = label then
    let rest := line.drop label.length
    if rest = [] then none else some (strip rest)
  else none

def gameLabel : Str := "game:".toList

def variantLabel : Str := "variant:".toList

/-- Nullable record filled by `parse_out_file`. -/
structure ParsedOut where
  game : Option Str
  variant : Option Str
  wins : Option Nat
  games : Option Nat
  avgMoves : Option Str
deriving DecidableEq

def emptyParsed : ParsedOut := ⟨none, none, none, none, none⟩

/-- One iteration of the scanning loop in `parse_out_file`: strip the
line, skip it if empty, otherwise try `GAME_RE`, then `VARIANT_RE`, then
`COMPLETED_RE` (each hit assigns the field and `continue`s). -/
def parseStep (d : ParsedOut) (rawLine : Str) : ParsedOut :=
  let line := strip rawLine
  if line = [] then d
  else
    match matchLabel gameLabel line with
    | some g => { d with game := some g }
    | none =>
      match matchLabel variantLabel line with
      | some v => { d with variant := some v }
      | none =>
        match searchCompleted line with
        | some c =>
          { d with wins := some c.wins, games := some c.completed,
                   avgMoves := some c.avgMoves }
        | none => d

/-- `parse_out_file` (train_krr_winrate.py, lines 39-65), with the file
given as its list of lines. -/
def parse_out_file (lines : List Str) : ParsedOut :=
  lines.foldl parseStep emptyParsed

/-! ## NameMatcher -/

/-- Characters kept by `normalize_name`: regex class `[a-z0-9]`. -/
def isLowerAlnum (c : Char) : Bool :=
  ('a' ≤ c && c ≤ 'z') || ('0' ≤ c && c ≤ '9')

/-- `normalize_name` (both scripts): lowercase, then delete every
character outside `[a-z0-9]`. -/
def normalize_name (s : Str) : Str :=
  (s.map Char.toLower).filter isLowerAlnum

/-- One insertion into a Python `dict`: an existing key keeps its
position and gets the new value, a new key is appended. -/
def dictInsert (m : List (Str × Str)) (k v : Str) : List (Str × Str) :=
  if m.any (fun p => p.1 == k) then
    m.map (fun p => if p.1 == k then (k, v) else p)
  else m ++ [(k, v)]

/-- `dict(zip(games_df['_norm'], games_df['game']))`: the
normalized-name → canonical-name mapping, in table order. -/
def buildNormMap (gameNames : List Str) : List (Str × Str) :=
  gameNames.foldl (fun m g => dictInsert m (normalize_name g) g) []

/-- `dict.get`: value of the first (unique) entry with the given key. -/
def dictGet (m : List (Str × Str)) (k : Str) : Option Str :=
  (m.find? (fun p => p.1 == k)).map (fun p => p.2)

/-- `hay.find(needle) >= 0`: substring containment. -/
def hasSub (hay needle : Str) : Bool :=
  match hay with
  | [] => needle.isEmpty
  | _ :: t => needle.isPrefixOf hay || hasSub t needle

/-- The fuzzy condition of the matching loop:
`n == norm or n.startswith(norm) or norm.startswith(n)
 or n.find(norm) >= 0 or norm.find(n) >= 0`. -/
def fuzzyCond (norm n : Str) : Bool :=
  n == norm || norm.isPrefixOf n || n.isPrefixOf norm ||
    hasSub n norm || hasSub norm n

/-- The fuzzy scan: first mapping entry (in dict iteration order) whose
key satisfies `fuzzyCond`. -/
def fuzzyMatch (m : List (Str × Str)) (norm : Str) : Option Str :=
  (m.find? (fun p => fuzzyCond norm p.1)).map (fun p => p.2)

/-- Name resolution as implemented identically in
`build_dataset` (train_krr_winrate.py, lines 105-119) and
`predict_winrate` (tune_krr_winrate.py, lines 148-155):
exact normalized lookup first, fuzzy scan only when that misses. -/
def resolveGame (m : List (Str × Str)) (name : Str) : Option Str :=
  let norm := normalize_name name
  match dictGet m norm with
  | some g => some g
  | none => fuzzyMatch m norm

/-! ## Variant splitting -/

/-- Python `v.split('|')`: always non-empty, `''.split('|') == ['']`. -/
def splitBar : Str → List Str
  | [] => [[]]
  | c :: cs =>
    if c = '|' then [] :: splitBar cs
    else
      match splitBar cs with
      | [] => [[c]]
      | p :: ps => (c :: p) :: ps

/-- The shared first two steps of the variant decomposition
(train_krr_winrate.py, lines 144-147; tune_krr_winrate.py, lines
175-177): split on `|`, strip each token, right-pad with empty strings
to length at least 4.  Tokens beyond the fourth are kept here (the
code's `parts` list after the `while` loop). -/
def padParts (v : Str) : List Str :=
  let parts := (splitBar v).map strip
  parts ++ List.replicate (4 - parts.length) []

/-- The four variant components: `parts[:4]` in `build_dataset`
(line 148); in `predict_winrate`, `parts[0] … parts[3]` of the padded
list (lines 178-183), which is the same four values. -/
def splitVariant4 (v : Str) : List Str :=
  (padParts v).take 4

/-! ## DatasetBuilder -/

/-- One artifact of the results directory: file name, size in bytes and
text content as lines. -/
structure FileEntry where
  name : Str
  size : Nat
  lines : List Str
deriving DecidableEq

/-- One row of `game_properties.csv`: the `game` column plus the
remaining (numeric) property columns in table order.  The column set is
whatever the table declares, so it is a key-value list, not a fixed
record. -/
structure PropRow where
  game : Str
  props : List (Str × ℚ)
deriving DecidableEq

/-- File lookup by name (names in one directory are unique). -/
def getFile (files : List FileEntry) (n : Str) : Option FileEntry :=
  files.find? (fun f => f.name == n)

def dotOut : Str := ".out".toList

def dotErr : Str := ".err".toList

def gamePre : Str := "game_".toList

/-- First-occurrence deduplication, with the set of already-seen
elements as accumulator. -/
def firstDedupAux (seen : List Str) : List Str → List Str
  | [] => []
  | a :: l =>
    if a ∈ seen then firstDedupAux seen l
    else a :: firstDedupAux (a :: seen) l

/-- First-occurrence deduplication (the semantics of Python dict key
order and of `pandas.Series.unique`). -/
def firstDedup (l : List Str) : List Str := firstDedupAux [] l

/-- Ascending sort by the code-point lexicographic order (Python
`sorted` on strings). -/
def sortStr (l : List Str) : List Str :=
  List.insertionSort (fun a b : Str => a ≤ b) l

/-- `sorted(bases.items())`: the distinct base names of files ending in
`.out` or `.err`, in ascending order. -/
def basesOf (files : List FileEntry) : List Str :=
  sortStr (firstDedup ((files.map FileEntry.name).filterMap (fun n =>
    if dotOut.isSuffixOf n || dotErr.isSuffixOf n then
      some (n.take (n.length - 4))
    else none)))

/-- One dataset row (train_krr_winrate.py, lines 150-173).  The run
metadata fields (`moveTime`, `gamesPerMatchup`, `maxMoves`, `cpus`,
`mem`, source lines 123-140) are populated by an independent scan that
no claim touches and are omitted here.  `winrate` is `none` where the
code stores `np.nan`. -/
structure DataRow where
  jobBase : Str
  game : Str
  variant : Option Str
  variant_select : Str
  variant_simulation : Str
  variant_backprop : Str
  variant_finalmove : Str
  wins : Nat
  games : Nat
  winrate : Option ℚ
  avgMoves : Option Str
  props : List (Str × ℚ)
deriving DecidableEq

/-- Assembly of one dataset row from the parsed log, the matched game
and its property row. -/
def mkRow (base mapped : Str) (parsed : ParsedOut) (w g : Nat)
    (prow : List (Str × ℚ)) : DataRow :=
  let parts := splitVariant4 ((parsed.variant).getD [])
  { jobBase := base
    game := mapped
    variant := parsed.variant
    variant_select := parts.getD 0 []
    variant_simulation := parts.getD 1 []
    variant_backprop := parts.getD 2 []
    variant_finalmove := parts.getD 3 []
    wins := w
    games := g
    winrate := if 0 < g then some (mkRat w g) else none
    avgMoves := parsed.avgMoves
    props := prow.map (fun p => (gamePre ++ p.1, p.2)) }

/-- The skip test of lines 91-98: the error artifact exists and
`os.path.getsize` is positive. -/
def errNonEmpty (files : List FileEntry) (base : Str) : Bool :=
  match getFile files (base ++ dotErr) with
  | some fe => decide (0 < fe.size)
  | none => false

/-- The body of the per-base loop of `build_dataset`
(train_krr_winrate.py, lines 88-173): skip when the error artifact is
non-empty, when the output artifact is missing, when game/wins/games
cannot be parsed, or when the game name does not resolve; otherwise
emit the row.  (The property-row lookup cannot miss because the mapped
name always comes from the table; the `none` arm is unreachable.) -/
def processBase (files : List FileEntry) (propRows : List PropRow)
    (normMap : List (Str × Str)) (base : Str) : Option DataRow :=
  if errNonEmpty files base then none
  else
    match getFile files (base ++ dotOut) with
    | none => none
    | some fe =>
      match (parse_out_file fe.lines).game, (parse_out_file fe.lines).wins,
          (parse_out_file fe.lines).games with
      | some gname, some w, some g =>
        if gname == [] then none
        else
          match resolveGame normMap gname with
          | none => none
          | some mapped =>
            match propRows.find? (fun r => r.game == mapped) with
            | some prow =>
              some (mkRow base mapped (parse_out_file fe.lines) w g prow.props)
            | none => none
      | _, _, _ => none

/-- `build_dataset` (train_krr_winrate.py, lines 74-176), with the
results directory and the loaded property table as data. -/
def build_dataset (files : List FileEntry) (propRows : List PropRow) :
    List DataRow :=
  let normMap := buildNormMap (propRows.map PropRow.game)
  (basesOf files).filterMap (processBase files propRows normMap)

/-! ## FeatureEncoder (tune_krr_winrate.build_feature_matrix) -/

/-- One row of the dataset table as reloaded from `krr_dataset.csv` by
the tuner: the numeric `game_`-prefixed cells (a missing/NaN cell is
`none`, replaced by 0 by `fillna(0)`), the four variant component
cells (NaN is `none`, replaced by `''` by `fillna('')`), and the
winrate target. -/
structure TuneRow where
  numCells : List (Str × Option ℚ)
  select : Option Str
  simulation : Option Str
  backprop : Option Str
  finalmove : Option Str
  winrate : ℚ
deriving DecidableEq

/-- The reloaded dataset table: its declared column list plus its rows. -/
structure TuneDf where
  columns : List Str
  rows : List TuneRow
deriving DecidableEq

/-- The four variant component column names, in code order. -/
def compCols : List Str :=
  ["variant_select".toList, "variant_simulation".toList,
   "variant_backprop".toList, "variant_finalmove".toList]

/-- The cell of one component column in one row. -/
def compCell (r : TuneRow) (comp : Str) : Option Str :=
  if comp == "variant_select".toList then r.select
  else if comp == "variant_simulation".toList then r.simulation
  else if comp == "variant_backprop".toList then r.backprop
  else if comp == "variant_finalmove".toList then r.finalmove
  else none

/-- `df[comp].fillna('').astype(str)`: the column of one component. -/
def compColumn (df : TuneDf) (comp : Str) : List Str :=
  df.rows.map (fun r => (compCell r comp).getD [])

/-- `[c for c in df.columns if c.startswith('game_')]`. -/
def numColsOf (df : TuneDf) : List Str :=
  df.columns.filter (fun c => gamePre.isPrefixOf c)

/-- `sorted([t for t in tokens.unique() if t])`: one component's
vocabulary as the code computes it. -/
def vocabOf (vals : List Str) : List Str :=
  sortStr ((firstDedup vals).filter (fun t => !(t == [])))

/-- One row's one-hot block for one component: 1 exactly at the index
of the row's value when that value is non-empty and present in the
vocabulary (`if v and v in unique: mat[i, unique.index(v)] = 1`; the
vocabulary has no duplicates, so marking the cell equal to the value is
the same as marking `unique.index(v)`). -/
def oneHotRow (vocab : List Str) (v : Str) : List ℚ :=
  vocab.map (fun u => if !(v == []) && u == v then (1 : ℚ) else 0)

/-- `build_feature_matrix` (tune_krr_winrate.py, lines 47-71):
numeric block of all `game_` columns (NaN as 0) concatenated with the
four per-component one-hot blocks; returns `(X, y, feature_names)`.
The components present in `comp_cols` but absent from `df.columns` are
skipped, exactly as the `if comp in df.columns` guard does. -/
def build_feature_matrix (df : TuneDf) :
    List (List ℚ) × List ℚ × List Str :=
  let numCols := numColsOf df
  let comps := compCols.filter (fun c => df.columns.contains c)
  let featureNames :=
    numCols ++ comps.flatMap (fun c =>
      (vocabOf (compColumn df c)).map (fun v => c ++ ('=' :: v)))
  let X := df.rows.map (fun r =>
    numCols.map (fun c =>
      (((r.numCells.find? (fun p => p.1 == c)).map (fun p => p.2)).getD
        none).getD 0)
    ++ comps.flatMap (fun c =>
      oneHotRow (vocabOf (compColumn df c)) ((compCell r c).getD [])))
  let y := df.rows.map TuneRow.winrate
  (X, y, featureNames)

/-- Feature-name list emitted by the encoder. -/
def featureNamesOf (df : TuneDf) : List Str :=
  (build_feature_matrix df).2.2

/-- Modelled from the spec (FeatureSchema, §3): the vocabulary of one
component as "that component's sorted set of distinct non-empty
observed values" — the finite set of non-empty values, listed in
ascending order.  Stated independently of the code's
unique-then-filter-then-sort computation, to be compared with it. -/
def specVocab (vals : List Str) : List Str :=
  Finset.sort (fun a b : Str => a ≤ b) (vals.filter (fun t => !(t == []))).toFinset

/-! ## PredictionService (tune_krr_winrate.predict_winrate) -/

/-- The two explicit failures of `predict_winrate`:
`FileNotFoundError('Model or feature names not found...')` and
`ValueError('Game ... not found in game properties')`. -/
inductive PredErr where
  | modelNotTrained : PredErr
  | gameNotFound : PredErr
deriving DecidableEq

/-- The prediction-time environment: whether the two persisted
artifacts exist, the persisted feature-name schema, the loaded property
table, and the persisted pipeline's scalar prediction function. -/
structure PredEnv where
  modelExists : Bool
  featuresExists : Bool
  featureNames : List Str
  propRows : List PropRow
  regressor : List ℚ → ℚ

/-- `feature.split('=', 1)`: component name and value of a categorical
feature name (only ever used under the `'=' in feature` guard). -/
def eqSplit (fn : Str) : Str × Str :=
  (fn.takeWhile (fun c => !(c == '=')),
   (fn.dropWhile (fun c => !(c == '='))).drop 1)

/-- `variant_by_comp.get(comp, '')` for the four-component split of the
query variant. -/
def compValue (parts : List Str) (comp : Str) : Str :=
  if comp == "variant_select".toList then parts.getD 0 []
  else if comp == "variant_simulation".toList then parts.getD 1 []
  else if comp == "variant_backprop".toList then parts.getD 2 []
  else if comp == "variant_finalmove".toList then parts.getD 3 []
  else []

/-- The token-part entry for one categorical feature name
(tune_krr_winrate.py, lines 184-191): `component=value` names compare
the query's component (`variant_by_comp`, built from the first four
padded parts) against the value; legacy plain names test membership in
`raw_token_set`, the non-empty entries of the whole padded parts list
(which the code does not truncate to 4). -/
def tokenFeatureValue (parts4 rawParts : List Str) (fn : Str) : ℚ :=
  if fn.contains '=' then
    if compValue parts4 (eqSplit fn).1 == (eqSplit fn).2 then 1 else 0
  else if (rawParts.filter (fun p => !(p == []))).contains fn then 1 else 0

/-- The numeric-part entry for one `game_` feature name
(tune_krr_winrate.py, lines 162-169): `props.get(propname, 0)`.  Table
values are already rationals here, so the `float(val)` conversion (with
its `except`-to-0 fallback for non-numeric cells) is the identity. -/
def numFeatureValue (props : List (Str × ℚ)) (fn : Str) : ℚ :=
  ((props.find? (fun p => p.1 == fn.drop 5)).map (fun p => p.2)).getD 0

/-- The feature vector `x` assembled by `predict_winrate`: numeric
entries for the `game_`-prefixed schema names in schema order, then
token entries for the remaining schema names in schema order.
`np.nan_to_num` maps non-finite entries to 0 and is the identity on
rationals. -/
def featureVec (featureNames : List Str) (props : List (Str × ℚ))
    (variant : Str) : List ℚ :=
  (featureNames.filter (fun fn => gamePre.isPrefixOf fn)).map
    (numFeatureValue props)
  ++ (featureNames.filter (fun fn => !(gamePre.isPrefixOf fn))).map
    (tokenFeatureValue (splitVariant4 variant) (padParts variant))

/-- `predict_winrate` (tune_krr_winrate.py, lines 132-198).  The
persisted artifacts and the loaded property table are the environment;
the final `np.clip(pred, 0.0, 1.0)` is `min 1 (max 0 pred)`.
(As in `build_dataset`, the property-row lookup for the resolved name
cannot miss, so its fallback `[]` is unreachable.) -/
def predict_winrate (env : PredEnv) (game_name variant : Str) :
    Except PredErr ℚ :=
  if env.modelExists && env.featuresExists then
    match resolveGame (buildNormMap (env.propRows.map PropRow.game))
        game_name with
    | none => .error .gameNotFound
    | some mapped =>
      .ok (min 1 (max 0 (env.regressor (featureVec env.featureNames
        (((env.propRows.find? (fun r => r.game == mapped)).map
          PropRow.props).getD []) variant))))
  else .error .modelNotTrained

/-! ## Concrete fixtures used by counterexamples and witnesses -/

def lGame : Str := "Game: Hex".toList

def lGameA : Str := "Game: A".toList

def lGameB : Str := "Game: B".toList

def lComp0 : Str :=
  "completed=0/0, wins=0, losses=0, draws=0, failures=0, avgMoves=1.0".toList

def lComp2 : Str :=
  "completed=2/2, wins=1, losses=1, draws=0, failures=0, avgMoves=24.5".toList

def cp1 : List PropRow := [⟨"Hex".toList, [("players".toList, 2)]⟩]

def cf1 : List FileEntry := [⟨"j1.out".toList, 0, [lGame, lComp0]⟩]

def cf2 : List FileEntry := [⟨"j1.out".toList, 0, [lGame, lComp2]⟩]

def cf3 : List FileEntry :=
  [⟨"a.out".toList, 0, [lGame, lComp2]⟩,
   ⟨"b.out".toList, 0, [lGame, lComp2]⟩,
   ⟨"b.err".toList, 3, []⟩]

def dfltRow : DataRow :=
  ⟨[], [], none, [], [], [], [], 0, 0, none, none, []⟩

def c1row : DataRow := (build_dataset cf2 cp1).headD dfltRow

def c5row : DataRow := (build_dataset cf3 cp1).headD dfltRow

def c7map : List (Str × Str) :=
  [("hexeleven".toList, "Hex Eleven".toList), ("hex".toList, "Hex".toList)]

def c10games : List Str := ["Hex Game".toList]

def cEnv : PredEnv :=
  { modelExists := true
    featuresExists := true
    featureNames := ["game_players".toList, "variant_select=UCB1".toList]
    propRows := [⟨"Hex".toList, [("players".toList, 2)]⟩]
    regressor := fun _ => 5 }

def cEnvNoModel : PredEnv :=
  { cEnv with modelExists := false }

/-! ## Helper lemmas -/

lemma parse_snoc (ls : List Str) (l : Str) :
    parse_out_file (ls ++ [l]) = parseStep (parse_out_file ls) l := by
  simp [parse_out_file, List.foldl_append]

lemma matchLabel_nil_game : matchLabel gameLabel [] = none := rfl

lemma matchLabel_nil_variant : matchLabel variantLabel [] = none := rfl

lemma searchCompleted_nil : searchCompleted [] = none := rfl

lemma parseStep_game {d : ParsedOut} {l v : Str}
    (h : matchLabel gameLabel (strip l) = some v) :
    (parseStep d l).game = some v := by
  have hl : ¬(strip l = []) := by
    intro hnil
    rw [hnil, matchLabel_nil_game] at h
    exact Option.noConfusion h
  simp only [parseStep, if_neg hl, h]

lemma parseStep_variant {d : ParsedOut} {l v : Str}
    (hg : matchLabel gameLabel (strip l) = none)
    (h : matchLabel variantLabel (strip l) = some v) :
    (parseStep d l).variant = some v := by
  have hl : ¬(strip l = []) := by
    intro hnil
    rw [hnil, matchLabel_nil_variant] at h
    exact Option.noConfusion h
  simp only [parseStep, if_neg hl, hg, h]

lemma parseStep_completed {d : ParsedOut} {l : Str} {c : Completed}
    (hg : matchLabel gameLabel (strip l) = none)
    (hv : matchLabel variantLabel (strip l) = none)
    (h : searchCompleted (strip l) = some c) :
    (parseStep d l).wins = some c.wins ∧
    (parseStep d l).games = some c.completed ∧
    (parseStep d l).avgMoves = some c.avgMoves := by
  have hl : ¬(strip l = []) := by
    intro hnil
    rw [hnil, searchCompleted_nil] at h
    exact Option.noConfusion h
  refine ⟨?_, ?_, ?_⟩ <;> simp only [parseStep, if_neg hl, hg, hv, h]

/-- C2 (counterexample): in a log with two `Game:` lines the parser
keeps the value of the second line, so a later matching line does not
leave the already-set field unchanged. -/
theorem C2_counterexample :
    (parse_out_file [lGameA]).game = some ("A".toList) ∧
    (parse_out_file [lGameA, lGameB]).game = some ("B".toList) ∧
    "A".toList ≠ "B".toList := by
  refine ⟨by decide, by decide, by decide⟩

/-- C2 (amended): each of the fields game, variant and
(wins, games, avgMoves) is assigned from the LAST line matching that
field's pattern — a later matching line always overwrites the field. -/
theorem C2_last_match_wins (ls : List Str) (l : Str) :
    (∀ v, matchLabel gameLabel (strip l) = some v →
      (parse_out_file (ls ++ [l])).game = some v) ∧
    (∀ v, matchLabel gameLabel (strip l) = none →
      matchLabel variantLabel (strip l) = some v →
      (parse_out_file (ls ++ [l])).variant = some v) ∧
    (∀ c : Completed, matchLabel gameLabel (strip l) = none →
      matchLabel variantLabel (strip l) = none →
      searchCompleted (strip l) = some c →
      (parse_out_file (ls ++ [l])).wins = some c.wins ∧
      (parse_out_file (ls ++ [l])).games = some c.completed ∧
      (parse_out_file (ls ++ [l])).avgMoves = some c.avgMoves) := by
  refine ⟨?_, ?_, ?_⟩
  · intro v h
    rw [parse_snoc]
    exact parseStep_game h
  · intro v hg h
    rw [parse_snoc]
    exact parseStep_variant hg h
  · intro c hg hv h
    rw [parse_snoc]
    exact parseStep_completed hg hv h

/-- C2 (witness): the amended theorem applied to a concrete log whose
last `Game:` line carries `B`. -/
theorem C2_witness : (parse_out_file [lGameA, lGameB]).game = some ("B".toList) :=
  (C2_last_match_wins [lGameA] lGameB).1 ("B".toList) (by decide)

/-- C6: the variant decomposition shared by `build_dataset` and
`predict_winrate` always yields exactly four components;
`"A|B|C|D"` gives `[A,B,C,D]`, `"A|B"` gives `[A,B,"",""]`, and tokens
beyond the fourth are discarded. -/
theorem C6_split_into_four :
    (∀ v : Str, (splitVariant4 v).length = 4) ∧
    splitVariant4 ("A|B|C|D".toList) =
      ["A".toList, "B".toList, "C".toList, "D".toList] ∧
    splitVariant4 ("A|B".toList) = ["A".toList, "B".toList, [], []] ∧
    splitVariant4 ("A|B|C|D|E".toList) =
      ["A".toList, "B".toList, "C".toList, "D".toList] := by
  refine ⟨fun v => ?_, by decide, by decide, by decide⟩
  simp only [splitVariant4, padParts, List.length_take, List.length_append,
    List.length_replicate]
  omega

/-- C7: whenever the normalized query is an exact key of the
normalized-name map, name resolution returns that key's canonical name
without consulting the fuzzy scan. -/
theorem C7_exact_beats_fuzzy (m : List (Str × Str)) (q g : Str)
    (h : dictGet m (normalize_name q) = some g) :
    resolveGame m q = some g := by
  simp only [resolveGame, h]

/-- C7 (witness): the query `"Hex!"` resolves to `"Hex"` through the
exact key `"hex"`, although the earlier entry `"hexeleven"` is also a
fuzzy (prefix) candidate. -/
theorem C7_witness : resolveGame c7map ("Hex!".toList) = some ("Hex".toList) :=
  C7_exact_beats_fuzzy c7map ("Hex!".toList) ("Hex".toList) (by decide)

lemma dictInsert_length_le (m : List (Str × Str)) (k v : Str) :
    m.length ≤ (dictInsert m k v).length := by
  unfold dictInsert
  split
  · simp
  · simp

lemma foldl_dictInsert_length (gs : List Str) :
    ∀ m : List (Str × Str),
      m.length ≤
        (gs.foldl (fun m g => dictInsert m (normalize_name g) g) m).length := by
  induction gs with
  | nil => intro m; simp
  | cons a t ih =>
    intro m
    exact le_trans (dictInsert_length_le m (normalize_name a) a) (ih _)

lemma buildNormMap_ne_nil {gs : List Str} (h : gs ≠ []) :
    buildNormMap gs ≠ [] := by
  cases gs with
  | nil => exact absurd rfl h
  | cons a t =>
    intro hnil
    have h1 : (1 : ℕ) ≤ (buildNormMap (a :: t)).length := by
      have : buildNormMap (a :: t) =
          t.foldl (fun m g => dictInsert m (normalize_name g) g)
            (dictInsert [] (normalize_name a) a) := rfl
      rw [this]
      exact le_trans (by simp [dictInsert]) (foldl_dictInsert_length t _)
    rw [hnil] at h1
    simp at h1

lemma fuzzyCond_nil (n : Str) : fuzzyCond [] n = true := by
  have hp : ([] : Str).isPrefixOf n = true := by cases n <;> rfl
  simp [fuzzyCond, hp]

/-- C10: a query whose normalized form is empty (for example a
punctuation-only name) never fails against a non-empty property table:
when no exact empty-string key exists, the fuzzy scan accepts the very
first mapping entry, because the empty string is a prefix of every
key. -/
theorem C10_empty_query_first_entry (gs : List Str) (q : Str)
    (hq : normalize_name q = [])
    (hne : gs ≠ [])
    (hno : dictGet (buildNormMap gs) [] = none) :
    resolveGame (buildNormMap gs) q =
      some (((buildNormMap gs).headD ([], [])).2) := by
  have hm : buildNormMap gs ≠ [] := buildNormMap_ne_nil hne
  simp only [resolveGame, hq, hno]
  cases hcase : buildNormMap gs with
  | nil => exact absurd hcase hm
  | cons p rest =>
    simp [fuzzyMatch, List.find?, fuzzyCond_nil p.1]

/-- C10 (witness): the punctuation-only query `"!!!"` against the
one-game table `["Hex Game"]` resolves to `"Hex Game"`. -/
theorem C10_witness :
    resolveGame (buildNormMap c10games) ("!!!".toList) =
      some ("Hex Game".toList) :=
  C10_empty_query_first_entry c10games ("!!!".toList) (by decide) (by decide)
    (by decide)

lemma processBase_some {files : List FileEntry} {propRows : List PropRow}
    {normMap : List (Str × Str)} {base : Str} {row : DataRow}
    (h : processBase files propRows normMap base = some row) :
    ∃ mapped parsed w g prow, row = mkRow base mapped parsed w g prow := by
  unfold processBase at h
  repeat' split at h
  all_goals try exact Option.noConfusion h
  exact ⟨_, _, _, _, _, (Option.some.inj h).symm⟩

/-- C1: for every row of a built dataset, `winrate` is exactly
`wins / games` when `games > 0`; but a job with `games = 0` is NOT
excluded — its row carries an undefined (`NaN`, here `none`) winrate. -/
theorem C1_winrate_exact (files : List FileEntry) (propRows : List PropRow)
    (row : DataRow) (h : row ∈ build_dataset files propRows) :
    (0 < row.games →
      row.winrate = some ((row.wins : ℚ) / (row.games : ℚ))) ∧
    (row.games = 0 → row.winrate = none) := by
  obtain ⟨base, hbase, hp⟩ :=
    List.mem_filterMap.mp (by simpa [build_dataset] using h)
  obtain ⟨mapped, parsed, w, g, prow, rfl⟩ := processBase_some hp
  constructor
  · intro hg
    simp only [mkRow] at hg ⊢
    rw [if_pos hg, Rat.mkRat_eq_div, Int.cast_natCast]
  · intro hg
    simp only [mkRow] at hg ⊢
    rw [if_neg (by omega)]

/-- C1 (counterexample): a job whose summary line reports
`completed=0/0, wins=0` is admitted into the dataset with `games = 0`
and an undefined winrate, rather than being excluded. -/
theorem C1_counterexample :
    (build_dataset cf1 cp1).map (fun r => (r.games, r.winrate)) =
      [(0, none)] := by
  decide

/-- C1 (witness): the sole row of a concrete two-game job has
`winrate = wins / games = 1 / 2`. -/
theorem C1_witness :
    0 < c1row.games ∧
      c1row.winrate = some ((c1row.wins : ℚ) / (c1row.games : ℚ)) :=
  ⟨by decide, (C1_winrate_exact cf2 cp1 c1row (by decide)).1 (by decide)⟩

/-- C5: a job whose error artifact exists with nonzero size contributes
no row to the built dataset. -/
theorem C5_nonzero_err_excluded (files : List FileEntry)
    (propRows : List PropRow) (base : Str) (fe : FileEntry)
    (hname : getFile files (base ++ dotErr) = some fe)
    (hsz : 0 < fe.size) :
    ∀ row ∈ build_dataset files propRows, row.jobBase ≠ base := by
  intro row hrow
  obtain ⟨b, hb, hp⟩ :=
    List.mem_filterMap.mp (by simpa [build_dataset] using hrow)
  obtain ⟨mapped, parsed, w, g, prow, rfl⟩ := processBase_some hp
  intro hjb
  have hb2 : b = base := by simpa [mkRow] using hjb
  rw [← hb2] at hname
  have herr : errNonEmpty files b = true := by
    unfold errNonEmpty
    rw [hname]
    exact decide_eq_true hsz
  unfold processBase at hp
  rw [if_pos herr] at hp
  exact Option.noConfusion hp

/-- C5 (witness): with jobs `a` (clean) and `b` (3-byte error
artifact), the only dataset row is not `b`'s. -/
theorem C5_witness : c5row.jobBase ≠ "b".toList :=
  C5_nonzero_err_excluded cf3 cp1 ("b".toList) ⟨"b.err".toList, 3, []⟩
    (by decide) (by decide) c5row (by decide)

lemma mem_firstDedupAux (a : Str) :
    ∀ (l seen : List Str), a ∈ firstDedupAux seen l ↔ a ∈ l ∧ a ∉ seen := by
  intro l
  induction l with
  | nil => intro seen; simp [firstDedupAux]
  | cons b t ih =>
    intro seen
    by_cases hb : b ∈ seen
    · rw [firstDedupAux, if_pos hb, ih]
      simp only [List.mem_cons]
      constructor
      · rintro ⟨ht, hs⟩
        exact ⟨Or.inr ht, hs⟩
      · rintro ⟨hbt, hs⟩
        rcases hbt with rfl | ht
        · exact absurd hb hs
        · exact ⟨ht, hs⟩
    · rw [firstDedupAux, if_neg hb]
      simp only [List.mem_cons, ih]
      by_cases hab : a = b
      · subst hab
        simp [hb]
      · simp only [hab, false_or, List.mem_cons]
        try tauto

lemma nodup_firstDedupAux : ∀ (l seen : List Str), (firstDedupAux seen l).Nodup := by
  intro l
  induction l with
  | nil => intro seen; simp [firstDedupAux]
  | cons b t ih =>
    intro seen
    by_cases hb : b ∈ seen
    · rw [firstDedupAux, if_pos hb]
      exact ih seen
    · rw [firstDedupAux, if_neg hb]
      rw [List.nodup_cons]
      refine ⟨?_, ih _⟩
      intro hmem
      rw [mem_firstDedupAux] at hmem
      exact hmem.2 (List.mem_cons_self b seen)

lemma mem_firstDedup (a : Str) (l : List Str) :
    a ∈ firstDedup l ↔ a ∈ l := by
  rw [firstDedup, mem_firstDedupAux]
  simp

lemma nodup_firstDedup (l : List Str) : (firstDedup l).Nodup :=
  nodup_firstDedupAux l []

/-- The code's unique-then-filter-then-sort vocabulary equals the
spec's sorted set of distinct non-empty observed values. -/
lemma vocab_eq_spec (vals : List Str) : vocabOf vals = specVocab vals := by
  have nd1 : (vocabOf vals).Nodup :=
    (List.perm_insertionSort (fun a b : Str => a ≤ b) _).symm.nodup
      ((nodup_firstDedup vals).filter _)
  have nd2 : (specVocab vals).Nodup := Finset.sort_nodup _ _
  refine List.eq_of_perm_of_sorted
    ((List.perm_ext_iff_of_nodup nd1 nd2).mpr fun a => ?_)
    (List.sorted_insertionSort _ _) (Finset.sort_sorted _ _)
  rw [vocabOf, sortStr, (List.perm_insertionSort _ _).mem_iff,
    List.mem_filter, mem_firstDedup, specVocab, Finset.mem_sort,
    List.mem_toFinset, List.mem_filter]

/-- C3: the training-mode encoder's feature-name list is all
`game_`-prefixed property columns first (in table order), then the four
per-component one-hot blocks in component order, each block's names
being `component=value` for the spec's sorted set of distinct non-empty
observed values of that component. -/
theorem C3_schema_layout (df : TuneDf) :
    featureNamesOf df =
      numColsOf df ++
        (compCols.filter (fun c => df.columns.contains c)).flatMap
          (fun c =>
            (specVocab (compColumn df c)).map (fun v => c ++ ('=' :: v))) := by
  have h0 : featureNamesOf df =
      numColsOf df ++
        (compCols.filter (fun c => df.columns.contains c)).flatMap
          (fun c =>
            (vocabOf (compColumn df c)).map (fun v => c ++ ('=' :: v))) := rfl
  rw [h0]
  simp only [vocab_eq_spec]

lemma length_filter_add_not {α : Type} (p : α → Bool) (l : List α) :
    (l.filter p).length + (l.filter (fun a => !(p a))).length = l.length := by
  induction l with
  | nil => rfl
  | cons a t ih =>
    cases h : p a <;> simp [List.filter_cons, h, ← ih] <;> omega

/-- C4: a query variant whose value for one component appears in none of
that component's schema features encodes that whole component block as
zeros; the assembled feature vector still has exactly one entry per
schema name, and prediction still succeeds (given artifacts and a
resolvable game) — no error is raised and the schema is not extended. -/
theorem C4_unseen_value_all_zeros (env : PredEnv) (variant comp : Str)
    (_hcomp : comp ∈ compCols)
    (hunseen : ∀ fn ∈ env.featureNames,
      ¬(fn.contains '=' = true ∧ (eqSplit fn).1 = comp ∧
        (eqSplit fn).2 = compValue (splitVariant4 variant) comp)) :
    (∀ fn ∈ env.featureNames, fn.contains '=' = true →
      (eqSplit fn).1 = comp →
      tokenFeatureValue (splitVariant4 variant) (padParts variant) fn = 0) ∧
    (∀ props : List (Str × ℚ),
      (featureVec env.featureNames props variant).length =
        env.featureNames.length) ∧
    ((env.modelExists && env.featuresExists) = true →
      ∀ g mapped,
        resolveGame (buildNormMap (env.propRows.map PropRow.game)) g =
          some mapped →
        ∃ r, predict_winrate env g variant = .ok r) := by
  refine ⟨?_, ?_, ?_⟩
  · intro fn hfn hcont heq1
    have hval : (eqSplit fn).2 ≠ compValue (splitVariant4 variant) comp := by
      intro hv
      exact hunseen fn hfn ⟨hcont, heq1, hv⟩
    have hne :
        (compValue (splitVariant4 variant) comp == (eqSplit fn).2) = false := by
      rw [beq_eq_false_iff_ne]
      exact fun hh => hval hh.symm
    rw [tokenFeatureValue, if_pos hcont, heq1, hne]
    simp
  · intro props
    rw [featureVec, List.length_append, List.length_map, List.length_map]
    exact length_filter_add_not _ _
  · intro hart g mapped hres
    refine ⟨min 1 (max 0 (env.regressor (featureVec env.featureNames
      (((env.propRows.find? (fun r => r.game == mapped)).map
        PropRow.props).getD []) variant))), ?_⟩
    rw [predict_winrate, if_pos hart, hres]

/-- C4 (witness): `"Zzz"` is not a schema value of `variant_select`, so
its one-hot entry is 0. -/
theorem C4_witness :
    tokenFeatureValue (splitVariant4 ("Zzz|Random|X|Y".toList))
      (padParts ("Zzz|Random|X|Y".toList)) ("variant_select=UCB1".toList) = 0 :=
  (C4_unseen_value_all_zeros cEnv ("Zzz|Random|X|Y".toList)
      ("variant_select".toList) (by decide) (by decide)).1
    ("variant_select=UCB1".toList) (by decide) (by decide) (by decide)

/-- C8: whatever scalar the persisted regressor returns, a successful
prediction is clipped into the closed interval [0,1]. -/
theorem C8_clipped_to_unit (env : PredEnv) (g v : Str) (r : ℚ)
    (h : predict_winrate env g v = .ok r) : 0 ≤ r ∧ r ≤ 1 := by
  rw [predict_winrate] at h
  split at h
  · split at h
    · exact Except.noConfusion h
    · rw [Except.ok.injEq] at h
      subst h
      exact ⟨le_min (by norm_num) (le_max_left 0 _), min_le_left 1 _⟩
  · exact Except.noConfusion h

/-- C8 (witness): with a regressor that returns the raw value 5, the
prediction is clipped to 1, which lies in [0,1]. -/
theorem C8_witness : (0 : ℚ) ≤ 1 ∧ (1 : ℚ) ≤ 1 :=
  C8_clipped_to_unit cEnv ("Hex".toList) ("UCB1".toList) 1 (by rfl)

/-- C9: `predict_winrate` fails with `modelNotTrained` exactly when one
of the persisted artifacts is absent, fails with `gameNotFound` exactly
when the artifacts exist but the game name does not resolve against the
property table, and in every remaining case returns a value. -/
theorem C9_failure_modes (env : PredEnv) (g v : Str) :
    (predict_winrate env g v = .error .modelNotTrained ↔
      (env.modelExists && env.featuresExists) = false) ∧
    (predict_winrate env g v = .error .gameNotFound ↔
      ((env.modelExists && env.featuresExists) = true ∧
        resolveGame (buildNormMap (env.propRows.map PropRow.game)) g =
          none)) ∧
    ((env.modelExists && env.featuresExists) = true →
      ∀ mapped,
        resolveGame (buildNormMap (env.propRows.map PropRow.game)) g =
          some mapped →
        ∃ r, predict_winrate env g v = .ok r) := by
  cases hart : env.modelExists && env.featuresExists with
  | false =>
    have hp : predict_winrate env g v = .error .modelNotTrained := by
      rw [predict_winrate, if_neg (by simp [hart])]
    rw [hp]
    simp
  | true =>
    cases hres :
        resolveGame (buildNormMap (env.propRows.map PropRow.game)) g with
    | none =>
      have hp : predict_winrate env g v = .error .gameNotFound := by
        rw [predict_winrate, if_pos hart, hres]
      rw [hp]
      simp
    | some mg =>
      have hp : predict_winrate env g v =
          .ok (min 1 (max 0 (env.regressor (featureVec env.featureNames
            (((env.propRows.find? (fun r => r.game == mg)).map
              PropRow.props).getD []) v)))) := by
        rw [predict_winrate, if_pos hart, hres]
      refine ⟨?_, ?_, ?_⟩
      · rw [hp]
        simp
      · rw [hp]
        simp
      · intro _ mapped _
        exact ⟨_, hp⟩

/-- C9 (witness): with the persisted model artifact absent, the
prediction entry point fails with the model-not-trained error. -/
theorem C9_witness :
    predict_winrate cEnvNoModel ("Hex".toList) ("UCB1".toList) =
      .error .modelNotTrained :=
  ((C9_failure_modes cEnvNoModel ("Hex".toList) ("UCB1".toList)).1).mpr
    (by decide)
